import Mathlib

/-
Verification of the transcript indexing and search engine of the
`search-neil` repository (web-app/server/index.js, the current "v9"
server).  JavaScript strings are modelled as `List Char` (the corpus and
the queries of interest are ASCII; the ASCII fragments of `toLowerCase`,
`toUpperCase`, `trim` and the regex character classes are embedded).
SQLite FTS5 is external to the repository; its MATCH semantics for a
single match-expression string is kept abstract as a function parameter,
its documented `OR` connective is embedded as disjunction, and the fact
that a match-expression syntax error is determined by the expression text
alone (never by the tokenizer of the table) is embedded by using a single
error predicate on match strings for both tables.  `ORDER BY rank` is an
unspecified permutation of the matching rows, kept abstract as a function
parameter constrained to be a permutation where a theorem needs it.
-/

set_option maxRecDepth 8000

namespace SearchNeil

/-! ## String helpers (List Char model of the JavaScript string operations) -/

/-- Whitespace class used by `String.prototype.trim` and the `\s` regex
class, restricted to its ASCII members. -/
def isWSc (c : Char) : Bool :=
  c = ' ' || c = '\t' || c = '\n' || c = '\r' || c = '\x0b' || c = '\x0c'

/-- Model of `s.trim()`: remove leading and trailing whitespace. -/
def trimL (s : List Char) : List Char :=
  ((s.dropWhile isWSc).reverse.dropWhile isWSc).reverse

/-- Model of `content.split(/\r?\n/)`: split on `"\n"`, also consuming a
directly preceding `"\r"`. -/
def splitLines : List Char → List (List Char)
  | [] => [[]]
  | '\r' :: '\n' :: rest => [] :: splitLines rest
  | '\n' :: rest => [] :: splitLines rest
  | c :: rest =>
    match splitLines rest with
    | [] => [[c]]
    | l :: ls => (c :: l) :: ls

/-- Model of `s.split(/\s+/).filter(w => w.length > 0)`: the maximal
nonempty runs of non-whitespace characters. -/
def splitWordsAux : List Char → List Char → List (List Char)
  | cur, [] => if cur = [] then [] else [cur.reverse]
  | cur, c :: rest =>
    if isWSc c then
      if cur = [] then splitWordsAux [] rest else cur.reverse :: splitWordsAux [] rest
    else splitWordsAux (c :: cur) rest

def splitWords (s : List Char) : List (List Char) := splitWordsAux [] s

/-- Join a list of strings with a separator, as `Array.prototype.join`. -/
def joinSep (sep : List Char) : List (List Char) → List Char
  | [] => []
  | [x] => x
  | x :: y :: xs => x ++ sep ++ joinSep sep (y :: xs)

/-- Model of `s.includes(pat)`. -/
def containsL (s pat : List Char) : Bool :=
  (List.range (s.length + 1)).any (fun i => pat.isPrefixOf (s.drop i))

/-- Model of `s.split(",")`. -/
def splitCommaAux : List Char → List Char → List (List Char)
  | cur, [] => [cur.reverse]
  | cur, c :: rest =>
    if c = ',' then cur.reverse :: splitCommaAux [] rest
    else splitCommaAux (c :: cur) rest

def splitComma (s : List Char) : List (List Char) := splitCommaAux [] s

/-- Model of `path.basename`: the part of the path after the last slash. -/
def basename (p : List Char) : List Char :=
  (p.reverse.takeWhile (fun c => c ≠ '/')).reverse

/-- ASCII apostrophe, kept as a named character. -/
def apostrophe : Char := Char.ofNat 39

/-- ASCII backquote, kept as a named character. -/
def backquote : Char := Char.ofNat 96

/-- Left curly single quote U+2018, part of the sanitizing regex class. -/
def curlyLeft : Char := Char.ofNat 8216

/-- Right curly single quote U+2019, part of the sanitizing regex class. -/
def curlyRight : Char := Char.ofNat 8217

/-! ## Data model -/

/-- One row of either FTS5 virtual table (a transcript segment). -/
structure Doc where
  id : List Char
  file : List Char
  line : Nat
  date : List Char
  text_content : List Char
  type : List Char
deriving DecidableEq, Repr

/-- One row of the `shows` registry table (`file` is the primary key). -/
structure ShowRow where
  date : List Char
  file : List Char
  type : List Char
  youtube_url : Option (List Char)
  custom_title : Option (List Char)
deriving DecidableEq, Repr

/-- One row of the `show_links` table (`date` is the primary key). -/
structure LinkRow where
  date : List Char
  youtube_url : List Char
  host : List Char
  custom_title : List Char
deriving DecidableEq, Repr

/-- The whole SQLite database: the two FTS5 tables, the two plain tables,
and the `is_indexed_v9` completion marker held in the `metadata` table. -/
structure DB where
  porter : List Doc
  trigram : List Doc
  shows : List ShowRow
  show_links : List LinkRow
  marker : Bool
deriving DecidableEq, Repr

/-! ## Transcript parser (the show-file branch of `buildIndex`) -/

/-- A trimmed line opens a segment iff it starts with `[` and contains
`-->` (`line.startsWith("[") && line.includes("-->")`). -/
def isMarker (l : List Char) : Bool :=
  decide (l.head? = some '[') && containsL l "-->".data

/-- Segment id: `relativePath + "::" + j`. -/
def mkId (rp : List Char) (j : Nat) : List Char :=
  rp ++ "::".data ++ (Nat.repr j).data

/-- The fresh `currentDoc` object created when a marker line is met. -/
def newShowDoc (rp date : List Char) (j : Nat) : Doc :=
  ⟨mkId rp j, rp, j, date, [], "show".data⟩

/-- The accumulation loop of `buildIndex` over a show file's lines:
blank (after trim) lines are skipped; a marker line pushes the current
document and opens a new one; any other line is appended to the current
document's text as `" " + line`; lines before the first marker are
dropped. -/
def parseShowLoop (rp date : List Char) : Nat → Option Doc → List (List Char) → List Doc
  | _, cur, [] => (match cur with | some d => [d] | none => [])
  | j, cur, l :: rest =>
    let t := trimL l
    if t = [] then parseShowLoop rp date (j + 1) cur rest
    else if isMarker t then
      (match cur with | some d => [d] | none => []) ++
        parseShowLoop rp date (j + 1) (some (newShowDoc rp date j)) rest
    else
      match cur with
      | some d =>
        parseShowLoop rp date (j + 1)
          (some { d with text_content := d.text_content ++ ' ' :: t }) rest
      | none => parseShowLoop rp date (j + 1) none rest

/-- The block of dialogue lines belonging to a marker: the trimmed
non-blank lines that follow, up to (excluding) the next marker. -/
def blockOf : List (List Char) → List (List Char)
  | [] => []
  | l :: rest =>
    let t := trimL l
    if t = [] then blockOf rest
    else if isMarker t then []
    else t :: blockOf rest

/-- The markers of a file together with their dialogue blocks, with the
source line index of each marker. -/
def segBlocks : Nat → List (List Char) → List (Nat × List (List Char))
  | _, [] => []
  | j, l :: rest =>
    let t := trimL l
    if t ≠ [] ∧ isMarker t = true then (j, blockOf rest) :: segBlocks (j + 1) rest
    else segBlocks (j + 1) rest

/-- Text built by the parser for a block: each line contributes a single
leading space followed by the trimmed line. -/
def leadJoin (blk : List (List Char))  : List Char :=
  (blk.map (fun l => ' ' :: l)).flatten

/-- Reference description of the show-file segments actually produced:
one per marker, in source order, text `leadJoin` of the block. -/
def showSegmentsOf (rp date : List Char) (lines : List (List Char)) : List Doc :=
  (segBlocks 0 lines).map (fun p => ⟨mkId rp p.1, rp, p.1, date, leadJoin p.2, "show".data⟩)

/-- Modelled from the claim's words (not from the source): segments whose
text is "exactly the concatenation of the whitespace-trimmed non-blank,
non-marker lines" of the block, read as the lines joined by single
spaces with no leading space. -/
def claimedShowSegments (rp date : List Char) (lines : List (List Char)) : List Doc :=
  (segBlocks 0 lines).map (fun p => ⟨mkId rp p.1, rp, p.1, date, joinSep [' '] p.2, "show".data⟩)

/-! ## Best-of parser pieces -/

/-- Does the string begin with a whitespace character. -/
def startsWSne (s : List Char) : Bool :=
  match s with
  | c :: _ => isWSc c
  | [] => false

/-- After `\d{1,2}:\d{2}` the regex `(?::\d{2})?\s+(.*)` must match. -/
def afterMin (s : List Char) : Bool :=
  match s with
  | ':' :: e :: f :: rest => (e.isDigit && f.isDigit && startsWSne rest) || startsWSne s
  | _ => startsWSne s

/-- The `:\d{2}` part directly after the leading digits. -/
def tsCore (s : List Char) : Bool :=
  match s with
  | ':' :: c :: d :: rest => c.isDigit && d.isDigit && afterMin rest
  | _ => false

/-- Model of `line.match(/^(\d{1,2}:\d{2}(?::\d{2})?)\s+(.*)/) !== null`. -/
def bestOfTs : List Char → Bool
  | [] => false
  | a :: rest =>
    a.isDigit &&
      (match rest with
       | b :: rest2 => (b.isDigit && tsCore rest2) || tsCore rest
       | [] => false)

/-- The best-of branch of the ingestion loop: from line index 2 on, a
trimmed line that is non-blank, not a lone ".", and begins with a clock
timestamp becomes one segment keeping the whole trimmed line. -/
def bestOfDocs (rp date : List Char) : Nat → List (List Char) → List Doc
  | _, [] => []
  | j, l :: rest =>
    let t := trimL l
    if t = [] ∨ t = ['.'] then bestOfDocs rp date (j + 1) rest
    else if bestOfTs t then
      ⟨mkId rp j, rp, j, date, t, "best_of".data⟩ :: bestOfDocs rp date (j + 1) rest
    else bestOfDocs rp date (j + 1) rest

/-! ## Date extraction (`getDateFromFilename`) -/

/-- The `\d{8}` capture: the next eight characters, provided they are all
digits. -/
def digits8 (s : List Char) : Option (List Char) :=
  let d := s.take 8
  if d.length = 8 ∧ d.all Char.isDigit then some d else none

/-- Try the regex `(?:rogers|lassiter)-(\d{8})` at this position. -/
def tryHostAt (s : List Char) : Option (List Char) :=
  if "rogers-".data.isPrefixOf s then digits8 (s.drop 7)
  else if "lassiter-".data.isPrefixOf s then digits8 (s.drop 9)
  else none

/-- Unanchored leftmost match of `(?:rogers|lassiter)-(\d{8})`, returning
the eight captured digits. -/
def matchHostDate : List Char → Option (List Char)
  | [] => none
  | c :: rest =>
    match tryHostAt (c :: rest) with
    | some d => some d
    | none => matchHostDate rest

/-- `d.substring(0,4)-d.substring(4,6)-d.substring(6,8)`. -/
def formatDate8 (d : List Char) : List Char :=
  d.take 4 ++ '-' :: ((d.drop 4).take 2 ++ '-' :: (d.drop 6).take 2)

/-- Model of `filename.match(/^(\d{4})/) !== null`. -/
def startsWith4Digits (s : List Char) : Bool :=
  decide ((s.take 4).length = 4) && (s.take 4).all Char.isDigit

/-- `getDateFromFilename` of the v9 server: a host-prefixed 8-digit date
formats to YYYY-MM-DD; otherwise a filename beginning with four digits
(the best-of convention) is pinned to Dec 31 of that year; otherwise the
sentinel `"Unknown Date"`. -/
def getDateFromFilename (filename : List Char) : List Char :=
  match matchHostDate filename with
  | some d => formatDate8 d
  | none =>
    if startsWith4Digits filename then filename.take 4 ++ "-12-31".data
    else "Unknown Date".data

/-! ## Query expansion (`expandQuery` and the `NEIL_THESAURUS`) -/

/-- The verbatim test used both by `expandQuery` and by the search route:
`q.startsWith('"') && q.endsWith('"') && q.length > 1`. -/
def isVerbatimQ (q : List Char) : Bool :=
  decide (q.head? = some '"' ∧ q.getLast? = some '"' ∧ 1 < q.length)

/-- Model of `s.replace(/["'`...]/g, "")` stripping double quotes,
apostrophes, backquotes and the two curly single quotes. -/
def stripQuoteChars (s : List Char) : List Char :=
  s.filter (fun c =>
    !(c = '"' || c = apostrophe || c = backquote || c = curlyLeft || c = curlyRight))

/-- JavaScript `\w` (ASCII): letters, digits and underscore. -/
def isWordChar (c : Char) : Bool := c.isAlphanum || c = '_'

/-- `word.replace(/[^\w]/g, "")`. -/
def cleanWordChars (w : List Char) : List Char := w.filter isWordChar

/-- The fixed two-entry thesaurus `NEIL_THESAURUS`. -/
def neilThesaurus (w : List Char) : Option (List (List Char)) :=
  if w = "jorge".data ∨ w = "george".data then some ["jorge".data, "george".data]
  else none

/-- Per-word expansion: a thesaurus hit becomes an OR-group of its class;
otherwise the cleaned word, falling back to the raw word when cleaning
removed everything (`cleanWord || word`). -/
def expandWord (w : List Char) : List Char :=
  let cw := cleanWordChars w
  match neilThesaurus cw with
  | some cls => '(' :: (joinSep " OR ".data cls ++ [')'])
  | none => if cw = [] then w else cw

/-- `expandQuery` of the v9 server: a verbatim query is returned
unchanged; otherwise quotes are stripped, the query is lowercased, split
on whitespace, each word expanded, and the words rejoined with single
spaces. -/
def expandQuery (query : List Char) : List Char :=
  if isVerbatimQ query then query
  else
    let sanitized := stripQuoteChars query
    let words := splitWords (sanitized.map Char.toLower)
    joinSep [' '] (words.map expandWord)

/-! ## Splitting on the show-wide AND operator (`query.split(/\s+AND\s+/i)`) -/

/-- The first three characters spell `and` case-insensitively. -/
def andCI (s : List Char) : Bool :=
  match s with
  | a :: n :: d :: _ =>
    (a = 'a' || a = 'A') && (n = 'n' || n = 'N') && (d = 'd' || d = 'D')
  | _ => false

/-- Match `\s+AND\s+` at the head of the string; on success return the
remainder after the (greedy) separator. -/
def matchSep (s : List Char) : Option (List Char) :=
  let r1 := s.dropWhile isWSc
  if s.takeWhile isWSc = [] then none
  else if andCI r1 then
    let r2 := r1.drop 3
    if r2.takeWhile isWSc = [] then none else some (r2.dropWhile isWSc)
  else none

theorem matchSep_shrink {s r : List Char} (h : matchSep s = some r) :
    r.length < s.length := by
  unfold matchSep at h
  by_cases h1 : s.takeWhile isWSc = []
  · simp [h1] at h
  · simp only [h1, if_false] at h
    by_cases h2 : andCI (s.dropWhile isWSc)
    · simp only [h2, if_true] at h
      by_cases h3 : ((s.dropWhile isWSc).drop 3).takeWhile isWSc = []
      · simp [h3] at h
      · simp only [h3, if_false, Option.some.injEq] at h
        subst h
        have hd : (s.dropWhile isWSc).length < s.length := by
          have hsum : (s.takeWhile isWSc).length + (s.dropWhile isWSc).length = s.length := by
            rw [← List.length_append, List.takeWhile_append_dropWhile]
          have hpos : 0 < (s.takeWhile isWSc).length :=
            List.length_pos.mpr h1
          omega
        calc (((s.dropWhile isWSc).drop 3).dropWhile isWSc).length
            ≤ ((s.dropWhile isWSc).drop 3).length :=
              (List.dropWhile_sublist _).length_le
          _ ≤ (s.dropWhile isWSc).length := by
              rw [List.length_drop]; omega
          _ < s.length := hd
    · simp [h2] at h

/-- The split loop: scan left to right; a separator occurrence closes the
current part and the scan continues after it.  The recursion is driven by
a fuel argument so that it stays structural (and so computable by the
kernel); every step consumes at least one character, so with fuel
`s.length` the zero-fuel branch is unreachable — `splitANDiGo_irrel`
below records that the result does not depend on the fuel, for any amount
at least `s.length`. -/
def splitANDiGo : Nat → List Char → List Char → List (List Char)
  | _, acc, [] => [acc.reverse]
  | 0, acc, s => [acc.reverse ++ s]
  | fuel + 1, acc, c :: rest =>
    match matchSep (c :: rest) with
    | some r => acc.reverse :: splitANDiGo fuel [] r
    | none => splitANDiGo fuel (c :: acc) rest

/-- Model of `query.split(/\s+AND\s+/i)`. -/
def splitANDi (s : List Char) : List (List Char) := splitANDiGo s.length [] s

theorem splitANDiGo_irrel : ∀ (fuel : Nat) (s acc : List Char), s.length ≤ fuel →
    splitANDiGo fuel acc s = splitANDiGo s.length acc s := by
  intro fuel
  induction fuel using Nat.strong_induction_on with
  | _ fuel ih =>
    intro s acc h
    cases s with
    | nil => cases fuel <;> rfl
    | cons c rest =>
      cases fuel with
      | zero => simp at h
      | succ n =>
        show splitANDiGo (n + 1) acc (c :: rest) =
          splitANDiGo (rest.length + 1) acc (c :: rest)
        have hlen : rest.length ≤ n := by
          simpa using h
        cases hm : matchSep (c :: rest) with
        | some r =>
          have hr : r.length < rest.length + 1 := by
            simpa using matchSep_shrink hm
          simp only [splitANDiGo, hm]
          rw [ih n (by omega) r [] (by omega),
            ih rest.length (by omega) r [] (by omega)]
        | none =>
          simp only [splitANDiGo, hm]
          rw [ih n (by omega) rest (c :: acc) hlen]

/-- The sub-clauses of an AND search: the raw query split on the AND
operator, each part trimmed and expanded. -/
def andParts (rawQ : List Char) : List (List Char) :=
  (splitANDi rawQ).map (fun p => expandQuery (trimL p))

/-- `finalMatchQuery` of an AND search: `"(" + parts.join(" OR ") + ")"`. -/
def mkOr (parts : List (List Char)) : List Char :=
  '(' :: (joinSep " OR ".data parts ++ [')'])

/-- All FTS5 match-expression strings a search statement executes: the
main match plus, for an AND search, one per sub-clause subquery. -/
def matchStrings (rawQ expQ : List Char) (isAnd : Bool) : List (List Char) :=
  if isAnd then mkOr (andParts rawQ) :: andParts rawQ else [expQ]

/-! ## Query engine (`getSearchResults` and the `/api/search` route)

The FTS5 MATCH semantics of one match-expression string against one row
is abstract (`MatchFn`); the `OR` joining of the AND sub-clauses in
`finalMatchQuery` is embedded as disjunction over the parts, per the
documented FTS5 `OR` connective.  Whether executing a statement raises an
FTS5 match-expression syntax error depends only on the expression
strings, so a single error predicate on strings serves both tables. -/

def MatchFn : Type := List Char → Doc → Bool

/-- Page size (`const limit = 100`). -/
def pageLimit : Nat := 100

/-- The year filter: `t.date LIKE 'y%'` OR-joined over the comma-split
`years` request parameter; absent or empty parameter means no filter
(JavaScript truthiness of the string). -/
def yearsOk (yearsParam : Option (List Char)) (date : List Char) : Bool :=
  match yearsParam with
  | none => true
  | some ys =>
    if ys = [] then true
    else (splitComma ys).any (fun y => y.isPrefixOf date)

/-- `req.query.type || "show"`. -/
def typeValueOf (typeParam : Option (List Char)) : List Char :=
  match typeParam with
  | none => "show".data
  | some t => if t = [] then "show".data else t

/-- The WHERE clause of the search statement applied to one row: the main
MATCH (any sub-clause for an AND search), for an AND search the
`t.file IN (... INTERSECT ...)` restriction to files whose segments match
every sub-clause (the subqueries carry no type or year condition), the
type equality, and the year filter. -/
def rowFilter (m : MatchFn) (docs : List Doc) (rawQ expQ : List Char) (isAnd : Bool)
    (yearsParam : Option (List Char)) (tv : List Char) (d : Doc) : Bool :=
  (if isAnd then (andParts rawQ).any (fun p => m p d) else m expQ d)
  && (if isAnd then
        (andParts rawQ).all (fun p => docs.any (fun e => m p e && decide (e.file = d.file)))
      else true)
  && decide (d.type = tv)
  && yearsOk yearsParam d.date

/-- All rows of the table passing the WHERE clause. -/
def filteredDocs (m : MatchFn) (docs : List Doc) (rawQ expQ : List Char) (isAnd : Bool)
    (yearsParam : Option (List Char)) (tv : List Char) : List Doc :=
  docs.filter (rowFilter m docs rawQ expQ isAnd yearsParam tv)

/-- `ORDER BY rank LIMIT 100 OFFSET o` with the rank order abstracted as
`ord` (constrained to a permutation in the theorems that need it). -/
def pageOf (ord : List Doc → List Doc) (l : List Doc) (offset : Nat) : List Doc :=
  ((ord l).drop offset).take pageLimit

/-- One `getSearchResults(tableName, ...)` call: raise iff any executed
match-expression string is invalid, otherwise return the requested page
of the ranked matching rows. -/
def getSearchResults (m : MatchFn) (errFn : List Char → Bool) (ord : List Doc → List Doc)
    (docs : List Doc) (rawQ expQ : List Char) (isAnd : Bool)
    (yearsParam : Option (List Char)) (tv : List Char) (offset : Nat) :
    Except Unit (List Doc) :=
  if (matchStrings rawQ expQ isAnd).any errFn then .error ()
  else .ok (pageOf ord (filteredDocs m docs rawQ expQ isAnd yearsParam tv) offset)

/-- `expandedQuery.replace(/["()]/g, "").trim()`. -/
def cleanedOf (q : List Char) : List Char :=
  trimL ((expandQuery q).filter (fun c => !(c = '"' || c = '(' || c = ')')))

/-- `expandedQuery.toUpperCase().includes(" AND ")`. -/
def isAndOf (q : List Char) : Bool :=
  containsL ((expandQuery q).map Char.toUpper) " AND ".data

/-- What the route sends back: 503 while indexing, a JSON hit list, or
the 500 of the outer catch. -/
inductive SearchResponse where
  | indexing : SearchResponse
  | results : List Doc → SearchResponse
  | serverError : SearchResponse
deriving DecidableEq, Repr

/-- The route's observable outcome: the response plus whether the trigram
table was queried (the fuzzy fallback ran). -/
structure SearchOutcome where
  response : SearchResponse
  usedFuzzy : Bool
deriving DecidableEq, Repr

/-- The `/api/search` handler: not-indexed and blank-query early returns,
the empty-cleaned-query guard, the exact (porter) search whose FTS5 error
is caught locally and degraded to an empty list, and the fuzzy (trigram)
fallback run only when the query is not verbatim, the exact page was
empty, and the raw query has at least 3 characters.  The fallback call
sits inside the outer try only, so an error there surfaces as the 500
`serverError`.  Context enrichment never fails (its read error falls back
to the stored text) and preserves the hit rows, so hits are returned as
the `Doc` rows themselves. -/
def apiSearch (mP mT : MatchFn) (errFn : List Char → Bool) (ord : List Doc → List Doc)
    (db : DB) (q : List Char) (yearsParam : Option (List Char))
    (typeParam : Option (List Char)) (offset : Nat) : SearchOutcome :=
  if db.marker = false then ⟨.indexing, false⟩
  else if trimL q = [] then ⟨.results [], false⟩
  else if cleanedOf q = [] then ⟨.results [], false⟩
  else
    match getSearchResults mP errFn ord db.porter q (expandQuery q) (isAndOf q)
        yearsParam (typeValueOf typeParam) offset with
    | .error _ => ⟨.results [], false⟩
    | .ok results =>
      if !isVerbatimQ q && results.isEmpty && decide (3 ≤ q.length) then
        match getSearchResults mT errFn ord db.trigram q (expandQuery q) (isAndOf q)
            yearsParam (typeValueOf typeParam) offset with
        | .error _ => ⟨.serverError, true⟩
        | .ok fr => ⟨.results fr, true⟩
      else ⟨.results results, false⟩

/-! ## CSV metadata reconciliation (`nrs_shows.csv` sync) -/

/-- The quote-aware field splitter of one CSV line: a doubled quote inside
a quoted field is a literal quote, a comma outside quotes separates
fields, quotes toggle the in-quotes state. -/
def parseCsvAux : List (List Char) → List Char → Bool → List Char → List (List Char)
  | parts, cur, _, [] => (cur.reverse :: parts).reverse
  | parts, cur, true, '"' :: '"' :: rest => parseCsvAux parts ('"' :: cur) true rest
  | parts, cur, true, '"' :: rest => parseCsvAux parts cur false rest
  | parts, cur, false, '"' :: rest => parseCsvAux parts cur true rest
  | parts, cur, false, ',' :: rest => parseCsvAux (cur.reverse :: parts) [] false rest
  | parts, cur, true, ',' :: rest => parseCsvAux parts (',' :: cur) true rest
  | parts, cur, inQ, c :: rest => parseCsvAux parts (c :: cur) inQ rest

def parseCsvLine (line : List Char) : List (List Char) := parseCsvAux [] [] false line

/-- `(field || "").replace(/"/g, "").trim()`. -/
def cleanField (s : List Char) : List Char := trimL (s.filter (fun c => !(c = '"')))

/-- `s.startsWith("http")`. -/
def isHttp (s : List Char) : Bool := "http".data.isPrefixOf s

/-- Admission of one split CSV row (date, init, youtube, notes, info,
host, custom_title positional): a row is admitted iff the cleaned date is
non-empty and the cleaned youtube field is non-empty and starts with
"http"; an http-looking host field is blanked. -/
def mkLink (row : List (List Char)) : Option LinkRow :=
  let cleanDate := cleanField (row.getD 0 [])
  let cleanYoutube := cleanField (row.getD 2 [])
  let h0 := cleanField (row.getD 5 [])
  let cleanHost := if isHttp h0 then [] else h0
  let cleanTitle := cleanField (row.getD 6 [])
  if cleanDate ≠ [] ∧ cleanYoutube ≠ [] ∧ isHttp cleanYoutube then
    some ⟨cleanDate, cleanYoutube, cleanHost, cleanTitle⟩
  else none

/-- The data rows: every line after the header (`.slice(1)`). -/
def csvRows (data : List Char) : List (List Char) := (splitLines data).drop 1

/-- The admitted links of the CSV, in file order: rows with at least 3
fields (`.filter(p => p.length >= 3)`) that `mkLink` admits. -/
def csvLinks (data : List Char) : List LinkRow :=
  (((csvRows data).map parseCsvLine).filter (fun p => decide (3 ≤ p.length))).filterMap mkLink

/-- `INSERT OR REPLACE INTO show_links`: by the `date` primary key. -/
def upsertLink (t : List LinkRow) (l : LinkRow) : List LinkRow :=
  t.filter (fun r => decide (r.date ≠ l.date)) ++ [l]

/-- The net effect of `DELETE FROM show_links` followed by inserting every
admitted link in file order. -/
def replaceAllLinks (ls : List LinkRow) : List LinkRow := ls.foldl upsertLink []

/-- The row of the link table holding a given date, if any. -/
def linkLookup (t : List LinkRow) (d : List Char) : Option LinkRow :=
  (t.filter (fun r => decide (r.date = d))).getLast?

/-- `INSERT OR REPLACE INTO shows`: by the `file` primary key. -/
def upsertShow (t : List ShowRow) (s : ShowRow) : List ShowRow :=
  t.filter (fun r => decide (r.file ≠ s.file)) ++ [s]

/-! ## Index builder (`buildIndex`) -/

inductive FType where
  | show : FType
  | best_of : FType
deriving DecidableEq, Repr

/-- One enumerated source file.  Show files are identified by their path
relative to the transcripts root (the key under which `read` serves their
content); best-of files by their own path, stored as
`best-of/<basename>`. -/
structure FileEntry where
  path : List Char
  ftype : FType
deriving DecidableEq, Repr

def relPathOf (e : FileEntry) : List Char :=
  match e.ftype with
  | .best_of => "best-of/".data ++ basename e.path
  | .show => e.path

/-- Processing of one source file: `fs.readFileSync` (its failure is NOT
caught anywhere in `buildIndex`, hence `none` here), line split, date
from the basename, then the type-specific segment extraction plus the
registry row. -/
def processFile (read : List Char → Option (List Char)) (e : FileEntry) :
    Option (List Doc × ShowRow) :=
  match read e.path with
  | none => none
  | some content =>
    let lines := splitLines content
    let filename := basename e.path
    let date := getDateFromFilename filename
    let rp := relPathOf e
    match e.ftype with
    | .best_of =>
      let t0 := trimL (lines.getD 0 [])
      let title := if t0 = [] then filename else t0
      let yt := trimL (lines.getD 1 [])
      some (bestOfDocs rp date 2 (lines.drop 2),
        ⟨date, rp, "best_of".data, some yt, some title⟩)
    | .show =>
      some (parseShowLoop rp date 0 none lines,
        ⟨date, rp, "show".data, none, none⟩)

/-- The `insertMany` transaction: insert every doc into BOTH FTS tables,
upsert the registry rows, upsert the links — atomically. -/
def insertMany (db : DB) (docs : List Doc) (shows : List ShowRow) (links : List LinkRow) : DB :=
  { db with
    porter := db.porter ++ docs
    trigram := db.trigram ++ docs
    shows := shows.foldl upsertShow db.shows
    show_links := links.foldl upsertLink db.show_links }

/-- In-memory accumulator of the ingestion loop, plus the trace of
database states observable at each committed transaction. -/
structure Acc where
  db : DB
  trace : List DB
  batch : List Doc
  showsBatch : List ShowRow
deriving Repr

/-- One loop iteration: read and parse the file (read failure aborts),
extend the batches, and flush both batches through `insertMany` once 50
registry rows have accumulated. -/
def stepFile (read : List Char → Option (List Char)) (a : Acc) (e : FileEntry) :
    Option Acc :=
  match processFile read e with
  | none => none
  | some (docs, showRow) =>
    let batch := a.batch ++ docs
    let showsBatch := a.showsBatch ++ [showRow]
    if 50 ≤ showsBatch.length then
      let db := insertMany a.db batch showsBatch []
      some ⟨db, a.trace ++ [db], [], []⟩
    else some ⟨a.db, a.trace, batch, showsBatch⟩

/-- The file loop.  An uncaught read failure propagates out, carrying the
state as of the last committed transaction. -/
def ingest (read : List Char → Option (List Char)) : Acc → List FileEntry → Except Acc Acc
  | a, [] => .ok a
  | a, e :: rest =>
    match stepFile read a e with
    | none => .error a
    | some a2 => ingest read a2 rest

/-- The post-loop flush: `if (batch.length > 0 || showsBatch.length > 0)
insertMany(batch, showsBatch, [])`. -/
def flushFinal (a : Acc) : Acc :=
  if a.batch ≠ [] ∨ a.showsBatch ≠ [] then
    let db := insertMany a.db a.batch a.showsBatch []
    ⟨db, a.trace ++ [db], [], []⟩
  else a

/-- The CSV sync, when `nrs_shows.csv` exists: one transaction that
empties `show_links` and inserts every admitted link. -/
def csvPhase (csv : Option (List Char)) (a : Acc) : Acc :=
  match csv with
  | none => a
  | some data =>
    let db := { a.db with show_links := replaceAllLinks (csvLinks data) }
    ⟨db, a.trace ++ [db], a.batch, a.showsBatch⟩

/-- Writing the `is_indexed_v9` completion marker. -/
def markerPhase (a : Acc) : Acc :=
  let db := { a.db with marker := true }
  ⟨db, a.trace ++ [db], a.batch, a.showsBatch⟩

/-- What a build run leaves behind: the final database, the observable
states of the drop/recreate phase (each `db.exec` DROP is its own
implicit transaction; the porter table is dropped first, then the trigram
table, then the registry), the observable states of everything after, and
whether the zero-source-files critical log fired. -/
structure BuildResult where
  db : DB
  dropTrace : List DB
  mainTrace : List DB
  noSources : Bool
deriving Repr

/-- The state after the three DROPs and the recreation of the empty
tables (the `show_links` table and the `metadata` table are untouched). -/
def dropPhase (db0 : DB) : DB := { db0 with porter := [], trigram := [], shows := [] }

/-- The three observable states of the drop phase, in statement order:
porter dropped first, then trigram, then the registry. -/
def dropTraceOf (db0 : DB) : List DB :=
  [{ db0 with porter := [] }, { db0 with porter := [], trigram := [] }, dropPhase db0]

/-- `buildIndex` of the v9 server (run only when the marker is absent):
drop and recreate the tables, ingest every enumerated file, flush, sync
the CSV, write the marker.  A read failure anywhere aborts the build with
the uncommitted work lost and the marker unwritten. -/
def buildIndex (read : List Char → Option (List Char)) (files : List FileEntry)
    (csv : Option (List Char)) (db0 : DB) : Except BuildResult BuildResult :=
  match ingest read ⟨dropPhase db0, [], [], []⟩ files with
  | .error a => .error ⟨a.db, dropTraceOf db0, a.trace, files.isEmpty⟩
  | .ok a =>
    .ok ⟨(markerPhase (csvPhase csv (flushFinal a))).db, dropTraceOf db0,
      (markerPhase (csvPhase csv (flushFinal a))).trace, files.isEmpty⟩

/-- Did the build run to completion. -/
def exceptOk : Except BuildResult BuildResult → Bool
  | .ok _ => true
  | .error _ => false

/-- The build state either way: the completed result, or the state left
behind by an aborted build. -/
def resultBR : Except BuildResult BuildResult → BuildResult
  | .ok r => r
  | .error r => r

/-- The loop state either way: after the last file, or as of the abort. -/
def resultAcc : Except Acc Acc → Acc
  | .ok a => a
  | .error a => a

/-! ## Helper lemmas -/

theorem mem_of_mem_pageOf {ord : List Doc → List Doc} {l : List Doc} {off : Nat} {d : Doc}
    (hOrd : ∀ l', List.Perm (ord l') l') (h : d ∈ pageOf ord l off) : d ∈ l := by
  have h1 : d ∈ (ord l).drop off := (List.take_sublist _ _).subset h
  have h2 : d ∈ ord l := (List.drop_sublist _ _).subset h1
  exact (hOrd l).subset h2

theorem mem_filteredDocs_and {m : MatchFn} {docs : List Doc} {rawQ expQ : List Char}
    {yearsParam : Option (List Char)} {tv : List Char} {d : Doc}
    (h : d ∈ filteredDocs m docs rawQ expQ true yearsParam tv) :
    (andParts rawQ).any (fun p => m p d) = true ∧
      ∀ p ∈ andParts rawQ, ∃ e, e ∈ docs ∧ m p e = true ∧ e.file = d.file := by
  obtain ⟨_, hf⟩ := List.mem_filter.mp h
  simp only [rowFilter, if_true, Bool.and_eq_true, List.all_eq_true] at hf
  obtain ⟨⟨⟨hany, hall⟩, _⟩, _⟩ := hf
  refine ⟨hany, fun p hp => ?_⟩
  have := hall p hp
  rw [List.any_eq_true] at this
  obtain ⟨e, he, hme⟩ := this
  rw [Bool.and_eq_true, decide_eq_true_iff] at hme
  exact ⟨e, he, hme.1, hme.2⟩

/-! ### Parser characterization (show files) -/

theorem parseShowLoop_blank {rp date l : List Char} {rest : List (List Char)}
    {j : Nat} {cur : Option Doc} (h : trimL l = []) :
    parseShowLoop rp date j cur (l :: rest) = parseShowLoop rp date (j + 1) cur rest := by
  simp [parseShowLoop, h]

theorem parseShowLoop_marker {rp date l : List Char} {rest : List (List Char)}
    {j : Nat} {cur : Option Doc} (h1 : trimL l ≠ []) (h2 : isMarker (trimL l) = true) :
    parseShowLoop rp date j cur (l :: rest) =
      (match cur with | some d => [d] | none => []) ++
        parseShowLoop rp date (j + 1) (some (newShowDoc rp date j)) rest := by
  simp [parseShowLoop, h1, h2]

theorem parseShowLoop_text_some {rp date l : List Char} {rest : List (List Char)}
    {j : Nat} {d : Doc} (h1 : trimL l ≠ []) (h2 : ¬ isMarker (trimL l) = true) :
    parseShowLoop rp date j (some d) (l :: rest) =
      parseShowLoop rp date (j + 1)
        (some { d with text_content := d.text_content ++ ' ' :: trimL l }) rest := by
  simp [parseShowLoop, h1, h2]

theorem parseShowLoop_text_none {rp date l : List Char} {rest : List (List Char)}
    {j : Nat} (h1 : trimL l ≠ []) (h2 : ¬ isMarker (trimL l) = true) :
    parseShowLoop rp date j none (l :: rest) = parseShowLoop rp date (j + 1) none rest := by
  simp [parseShowLoop, h1, h2]

theorem parseShowLoop_some (rp date : List Char) :
    ∀ (lines : List (List Char)) (j : Nat) (d : Doc),
      parseShowLoop rp date j (some d) lines =
        { d with text_content := d.text_content ++ leadJoin (blockOf lines) } ::
          (segBlocks j lines).map
            (fun p => ⟨mkId rp p.1, rp, p.1, date, leadJoin p.2, "show".data⟩) := by
  intro lines
  induction lines with
  | nil =>
    intro j d
    simp [parseShowLoop, blockOf, segBlocks, leadJoin]
  | cons l rest ih =>
    intro j d
    by_cases ht : trimL l = []
    · rw [parseShowLoop_blank ht, ih]
      have hb : blockOf (l :: rest) = blockOf rest := by simp [blockOf, ht]
      have hs : segBlocks j (l :: rest) = segBlocks (j + 1) rest := by
        simp [segBlocks, ht]
      rw [hb, hs]
    · by_cases hmk : isMarker (trimL l) = true
      · rw [parseShowLoop_marker ht hmk, ih]
        have hb : blockOf (l :: rest) = [] := by simp [blockOf, ht, hmk]
        have hs : segBlocks j (l :: rest) = (j, blockOf rest) :: segBlocks (j + 1) rest := by
          simp [segBlocks, ht, hmk]
        rw [hb, hs]
        simp [newShowDoc, leadJoin]
      · rw [parseShowLoop_text_some ht hmk, ih]
        have hb : blockOf (l :: rest) = trimL l :: blockOf rest := by
          simp [blockOf, ht, hmk]
        have hs : segBlocks j (l :: rest) = segBlocks (j + 1) rest := by
          simp [segBlocks, ht, hmk]
        rw [hb, hs]
        simp [leadJoin, List.append_assoc]

theorem parseShowLoop_none (rp date : List Char) :
    ∀ (lines : List (List Char)) (j : Nat),
      parseShowLoop rp date j none lines =
        (segBlocks j lines).map
          (fun p => ⟨mkId rp p.1, rp, p.1, date, leadJoin p.2, "show".data⟩) := by
  intro lines
  induction lines with
  | nil => intro j; simp [parseShowLoop, segBlocks]
  | cons l rest ih =>
    intro j
    by_cases ht : trimL l = []
    · rw [parseShowLoop_blank ht, ih]
      have hs : segBlocks j (l :: rest) = segBlocks (j + 1) rest := by
        simp [segBlocks, ht]
      rw [hs]
    · by_cases hmk : isMarker (trimL l) = true
      · rw [parseShowLoop_marker ht hmk, parseShowLoop_some]
        have hs : segBlocks j (l :: rest) = (j, blockOf rest) :: segBlocks (j + 1) rest := by
          simp [segBlocks, ht, hmk]
        rw [hs]
        simp [newShowDoc]
      · rw [parseShowLoop_text_none ht hmk, ih]
        have hs : segBlocks j (l :: rest) = segBlocks (j + 1) rest := by
          simp [segBlocks, ht, hmk]
        rw [hs]

/-! ### Date extraction characterization -/

theorem matchHostDate_none_iff (fn : List Char) :
    matchHostDate fn = none ↔ ∀ i, tryHostAt (fn.drop i) = none := by
  induction fn with
  | nil =>
    constructor
    · intro _ i
      rw [List.drop_nil]
      decide
    · intro _
      rfl
  | cons c rest ih =>
    simp only [matchHostDate]
    cases h : tryHostAt (c :: rest) with
    | some d =>
      constructor
      · intro hx; exact absurd hx (by simp)
      · intro hall
        have := hall 0
        simp only [List.drop_zero] at this
        rw [this] at h
        exact absurd h (by simp)
    | none =>
      rw [ih]
      constructor
      · intro hall i
        cases i with
        | zero => simpa using h
        | succ n => simpa using hall n
      · intro hall i
        simpa using hall (i + 1)

/-! ### Ingestion loop lemmas -/

theorem stepFile_some {read : List Char → Option (List Char)} {a : Acc} {e : FileEntry}
    {a2 : Acc} (h : stepFile read a e = some a2) :
    a2.db.marker = a.db.marker ∧
    a2.db.show_links = a.db.show_links ∧
    (a.db.porter = a.db.trigram → a2.db.porter = a2.db.trigram) ∧
    (a2.trace = a.trace ∨ a2.trace = a.trace ++ [a2.db]) := by
  unfold stepFile at h
  cases hp : processFile read e with
  | none => rw [hp] at h; exact absurd h (by simp)
  | some pr =>
    rw [hp] at h
    obtain ⟨docs, showRow⟩ := pr
    simp only at h
    by_cases hb : 50 ≤ (a.showsBatch ++ [showRow]).length
    · rw [if_pos hb] at h
      obtain rfl := Option.some.inj h
      refine ⟨rfl, rfl, ?_, Or.inr rfl⟩
      intro hpt
      simp only [insertMany]
      rw [hpt]
    · rw [if_neg hb] at h
      obtain rfl := Option.some.inj h
      exact ⟨rfl, rfl, fun hpt => hpt, Or.inl rfl⟩

theorem ingest_marker (read : List Char → Option (List Char)) :
    ∀ (files : List FileEntry) (a : Acc),
      (resultAcc (ingest read a files)).db.marker = a.db.marker := by
  intro files
  induction files with
  | nil => intro a; rfl
  | cons e rest ih =>
    intro a
    show (resultAcc (ingest read a (e :: rest))).db.marker = a.db.marker
    unfold ingest
    cases hs : stepFile read a e with
    | none => rfl
    | some a2 =>
      simp only
      rw [ih a2, (stepFile_some hs).1]

theorem ingest_links (read : List Char → Option (List Char)) :
    ∀ (files : List FileEntry) (a : Acc),
      (∀ s ∈ a.trace, s.show_links = a.db.show_links) →
      (resultAcc (ingest read a files)).db.show_links = a.db.show_links ∧
        ∀ s ∈ (resultAcc (ingest read a files)).trace, s.show_links = a.db.show_links := by
  intro files
  induction files with
  | nil => intro a h; exact ⟨rfl, h⟩
  | cons e rest ih =>
    intro a h
    show (resultAcc (ingest read a (e :: rest))).db.show_links = a.db.show_links ∧ _
    unfold ingest
    cases hs : stepFile read a e with
    | none => exact ⟨rfl, h⟩
    | some a2 =>
      simp only
      obtain ⟨_, hl, _, htr⟩ := stepFile_some hs
      have h2 : ∀ s ∈ a2.trace, s.show_links = a2.db.show_links := by
        intro s hsm
        cases htr with
        | inl heq => rw [heq] at hsm; rw [h s hsm, hl]
        | inr heq =>
          rw [heq] at hsm
          rcases List.mem_append.mp hsm with hold | hnew
          · rw [h s hold, hl]
          · rw [List.mem_singleton.mp hnew]
      obtain ⟨hc1, hc2⟩ := ih a2 h2
      exact ⟨by rw [hc1, hl], fun s hsm => by rw [hc2 s hsm, hl]⟩

theorem ingest_lockstep (read : List Char → Option (List Char)) :
    ∀ (files : List FileEntry) (a : Acc),
      a.db.porter = a.db.trigram →
      (∀ s ∈ a.trace, s.porter = s.trigram) →
      (resultAcc (ingest read a files)).db.porter = (resultAcc (ingest read a files)).db.trigram ∧
        ∀ s ∈ (resultAcc (ingest read a files)).trace, s.porter = s.trigram := by
  intro files
  induction files with
  | nil => intro a h1 h2; exact ⟨h1, h2⟩
  | cons e rest ih =>
    intro a h1 h2
    show (resultAcc (ingest read a (e :: rest))).db.porter = _ ∧ _
    unfold ingest
    cases hs : stepFile read a e with
    | none => exact ⟨h1, h2⟩
    | some a2 =>
      simp only
      obtain ⟨_, _, hpt, htr⟩ := stepFile_some hs
      have h1' := hpt h1
      have h2' : ∀ s ∈ a2.trace, s.porter = s.trigram := by
        intro s hsm
        cases htr with
        | inl heq => rw [heq] at hsm; exact h2 s hsm
        | inr heq =>
          rw [heq] at hsm
          rcases List.mem_append.mp hsm with hold | hnew
          · exact h2 s hold
          · rw [List.mem_singleton.mp hnew]; exact h1'
      exact ih a2 h1' h2'

theorem ingest_abort (read : List Char → Option (List Char)) :
    ∀ (files : List FileEntry) (a : Acc),
      files.any (fun e => (read e.path).isNone) = true →
      ∃ a2, ingest read a files = .error a2 := by
  intro files
  induction files with
  | nil => intro a h; simp at h
  | cons e rest ih =>
    intro a h
    rw [List.any_cons, Bool.or_eq_true] at h
    show ∃ a2, ingest read a (e :: rest) = .error a2
    unfold ingest
    cases hs : stepFile read a e with
    | none => exact ⟨a, rfl⟩
    | some a2 =>
      simp only
      apply ih a2
      cases h with
      | inr hr => exact hr
      | inl hl =>
        exfalso
        unfold stepFile processFile at hs
        cases hr : read e.path with
        | none => rw [hr] at hs; simp at hs
        | some c => rw [hr] at hl; simp at hl

/-! ### Link table replacement lemmas -/

theorem replaceAllLinks_concat (ls : List LinkRow) (l : LinkRow) :
    replaceAllLinks (ls ++ [l]) = upsertLink (replaceAllLinks ls) l := by
  simp [replaceAllLinks, List.foldl_append]

theorem replaceAllLinks_filter_date (dte : List Char) (ls : List LinkRow) :
    (replaceAllLinks ls).filter (fun r => decide (r.date = dte)) =
      ((ls.filter (fun r => decide (r.date = dte))).getLast?).toList := by
  induction ls using List.reverseRecOn with
  | nil => rfl
  | append_singleton ls l ih =>
    rw [replaceAllLinks_concat]
    by_cases hd : l.date = dte
    · have h1 : (upsertLink (replaceAllLinks ls) l).filter (fun r => decide (r.date = dte)) =
          [l] := by
        simp only [upsertLink, List.filter_append, List.filter_filter]
        have hz : (replaceAllLinks ls).filter
            (fun r => decide (r.date = dte) && decide (r.date ≠ l.date)) = [] := by
          apply List.filter_eq_nil_iff.mpr
          intro r _
          by_cases hr : r.date = dte
          · simp [hr, hd]
          · simp [hr]
        rw [hz]
        simp [hd]
      rw [h1, List.filter_append]
      have h2 : [l].filter (fun r => decide (r.date = dte)) = [l] := by simp [hd]
      rw [h2, List.getLast?_concat]
      rfl
    · have h1 : (upsertLink (replaceAllLinks ls) l).filter (fun r => decide (r.date = dte)) =
          (replaceAllLinks ls).filter (fun r => decide (r.date = dte)) := by
        simp only [upsertLink, List.filter_append, List.filter_filter]
        have h2 : [l].filter (fun r => decide (r.date = dte)) = [] := by simp [hd]
        rw [h2, List.append_nil]
        apply List.filter_congr
        intro r _
        by_cases hr : r.date = dte
        · have : ¬ dte = l.date := fun hc => hd hc.symm
          simp [hr, this]
        · simp [hr]
      rw [h1, ih, List.filter_append]
      have h2 : [l].filter (fun r => decide (r.date = dte)) = [] := by simp [hd]
      rw [h2, List.append_nil]

theorem linkLookup_replaceAllLinks (ls : List LinkRow) (dte : List Char) :
    linkLookup (replaceAllLinks ls) dte =
      (ls.filter (fun r => decide (r.date = dte))).getLast? := by
  unfold linkLookup
  rw [replaceAllLinks_filter_date]
  cases (ls.filter (fun r => decide (r.date = dte))).getLast? with
  | none => rfl
  | some r => rfl

/-! ### Search route unfolding lemmas -/

/-- The page the exact (porter) statement returns when it does not error. -/
def exactPage (mP : MatchFn) (ord : List Doc → List Doc) (db : DB) (q : List Char)
    (years : Option (List Char)) (tp : Option (List Char)) (off : Nat) : List Doc :=
  pageOf ord (filteredDocs mP db.porter q (expandQuery q) (isAndOf q) years (typeValueOf tp)) off

/-- The page the fuzzy (trigram) statement returns when it does not error. -/
def fuzzyPage (mT : MatchFn) (ord : List Doc → List Doc) (db : DB) (q : List Char)
    (years : Option (List Char)) (tp : Option (List Char)) (off : Nat) : List Doc :=
  pageOf ord (filteredDocs mT db.trigram q (expandQuery q) (isAndOf q) years (typeValueOf tp)) off

theorem getSearchResults_ok {m : MatchFn} {errFn : List Char → Bool}
    {ord : List Doc → List Doc} {docs : List Doc} {rawQ expQ : List Char} {isAnd : Bool}
    {years : Option (List Char)} {tv : List Char} {off : Nat}
    (he : (matchStrings rawQ expQ isAnd).any errFn = false) :
    getSearchResults m errFn ord docs rawQ expQ isAnd years tv off =
      .ok (pageOf ord (filteredDocs m docs rawQ expQ isAnd years tv) off) := by
  unfold getSearchResults
  rw [if_neg]
  simp [he]

theorem getSearchResults_err {m : MatchFn} {errFn : List Char → Bool}
    {ord : List Doc → List Doc} {docs : List Doc} {rawQ expQ : List Char} {isAnd : Bool}
    {years : Option (List Char)} {tv : List Char} {off : Nat}
    (he : (matchStrings rawQ expQ isAnd).any errFn = true) :
    getSearchResults m errFn ord docs rawQ expQ isAnd years tv off = .error () := by
  unfold getSearchResults
  rw [if_pos he]

theorem apiSearch_run {mP mT : MatchFn} {errFn : List Char → Bool}
    {ord : List Doc → List Doc} {db : DB} {q : List Char}
    {years tp : Option (List Char)} {off : Nat}
    (hm : db.marker = true) (hq : trimL q ≠ []) (hc : cleanedOf q ≠ [])
    (he : (matchStrings q (expandQuery q) (isAndOf q)).any errFn = false) :
    apiSearch mP mT errFn ord db q years tp off =
      (if !isVerbatimQ q && (exactPage mP ord db q years tp off).isEmpty
          && decide (3 ≤ q.length) then
        ⟨.results (fuzzyPage mT ord db q years tp off), true⟩
      else ⟨.results (exactPage mP ord db q years tp off), false⟩) := by
  unfold apiSearch
  rw [if_neg (by simp [hm]), if_neg hq, if_neg hc,
    getSearchResults_ok he, getSearchResults_ok he]
  rfl

theorem apiSearch_err {mP mT : MatchFn} {errFn : List Char → Bool}
    {ord : List Doc → List Doc} {db : DB} {q : List Char}
    {years tp : Option (List Char)} {off : Nat}
    (hm : db.marker = true) (hq : trimL q ≠ []) (hc : cleanedOf q ≠ [])
    (he : (matchStrings q (expandQuery q) (isAndOf q)).any errFn = true) :
    apiSearch mP mT errFn ord db q years tp off = ⟨.results [], false⟩ := by
  unfold apiSearch
  rw [if_neg (by simp [hm]), if_neg hq, if_neg hc, getSearchResults_err he]

theorem apiSearch_usedFuzzy_of_verbatim {mP mT : MatchFn} {errFn : List Char → Bool}
    {ord : List Doc → List Doc} {db : DB} {q : List Char}
    {years tp : Option (List Char)} {off : Nat} (hv : isVerbatimQ q = true) :
    (apiSearch mP mT errFn ord db q years tp off).usedFuzzy = false := by
  unfold apiSearch
  split
  · rfl
  · split
    · rfl
    · split
      · rfl
      · split
        · rfl
        · rw [hv]
          simp

/-! ## Claim theorems -/

/-- C3 (counterexample): the claim's reading of the segment text — the
whitespace-trimmed non-blank non-marker lines of the block concatenated
(space-joined, with no leading space) — disagrees with the parser on the
file `"[00:01 --> 00:05]\nhello"`: the parser produces the text
`" hello"` with a leading space, not `"hello"` (a bare concatenation
`"hello"` disagrees identically on this one-line block). -/
theorem c3_counterexample :
    parseShowLoop "f.txt".data "1999-01-01".data 0 none
        (splitLines "[00:01 --> 00:05]\nhello".data) ≠
      claimedShowSegments "f.txt".data "1999-01-01".data
        (splitLines "[00:01 --> 00:05]\nhello".data) := by
  decide

/-- C3 (amended): for every show file, the parser produces exactly one
segment per timestamp-marker line, in source order, whose `text_content`
is the concatenation of the whitespace-trimmed non-blank non-marker lines
of the block each preceded by one space (so the text carries a leading
space and single-space separators); non-blank lines before the first
marker contribute to no segment. -/
theorem c3_parser_segments (rp date : List Char) (lines : List (List Char)) :
    parseShowLoop rp date 0 none lines = showSegmentsOf rp date lines :=
  parseShowLoop_none rp date lines 0

/-- C7 (counterexample): the show filename `1988.txt` contains no
recognized host-prefix token followed by an 8-digit date, yet its derived
date is `1988-12-31` (the 4-leading-digit year rule fires for every
filename, show files included), not the `Unknown Date` sentinel. -/
theorem c7_counterexample :
    matchHostDate "1988.txt".data = none ∧
      getDateFromFilename "1988.txt".data = "1988-12-31".data ∧
      getDateFromFilename "1988.txt".data ≠ "Unknown Date".data := by
  decide

/-- C7 (amended): a filename containing a recognized host prefix followed
by eight digits (the leftmost such occurrence) derives the date formatted
as YYYY-MM-DD from those digits; a filename with no such occurrence
derives `<yyyy>-12-31` when it begins with four digits and the
`Unknown Date` sentinel otherwise; the file is never rejected either
way.  The no-occurrence condition is characterized position by
position. -/
theorem c7_date_from_filename (fn : List Char) :
    (matchHostDate fn = none ↔ ∀ i, tryHostAt (fn.drop i) = none) ∧
    (matchHostDate fn = none →
      getDateFromFilename fn =
        (if startsWith4Digits fn then fn.take 4 ++ "-12-31".data
         else "Unknown Date".data)) ∧
    (∀ d, matchHostDate fn = some d → getDateFromFilename fn = formatDate8 d) := by
  refine ⟨matchHostDate_none_iff fn, ?_, ?_⟩
  · intro h
    unfold getDateFromFilename
    rw [h]
  · intro d h
    unfold getDateFromFilename
    rw [h]

/-- C7 (witness): the theorem applied to a matching and a non-matching
concrete filename. -/
theorem c7_witness :
    getDateFromFilename "rogers-19990512.txt".data = formatDate8 "19990512".data ∧
      getDateFromFilename "intro-notes.txt".data = "Unknown Date".data := by
  constructor
  · exact (c7_date_from_filename "rogers-19990512.txt".data).2.2 "19990512".data (by decide)
  · have := (c7_date_from_filename "intro-notes.txt".data).2.1 (by decide)
    rw [this]
    decide

/-- C2 (counterexample): the one-character query consisting of a single
double quote starts and ends with a double quote, yet it is not passed
through unchanged: `expandQuery` strips it to the empty string (the code
additionally requires length > 1 for verbatim treatment). -/
theorem c2_counterexample :
    ("\"".data.head? = some '"' ∧ "\"".data.getLast? = some '"') ∧
      expandQuery "\"".data ≠ "\"".data := by
  decide

/-- C2 (amended): for every query of length at least 2 that starts and
ends with a double quote, the query passes through `expandQuery`
unchanged (no thesaurus expansion, no character stripping) and the
trigram/fuzzy fallback is never executed, whatever the index contents,
the match semantics, or the exact results. -/
theorem c2_verbatim_no_fallback (q : List Char)
    (h1 : q.head? = some '"') (h2 : q.getLast? = some '"') (h3 : 1 < q.length) :
    expandQuery q = q ∧
      ∀ (mP mT : MatchFn) (errFn : List Char → Bool) (ord : List Doc → List Doc)
        (db : DB) (years tp : Option (List Char)) (off : Nat),
        (apiSearch mP mT errFn ord db q years tp off).usedFuzzy = false := by
  have hv : isVerbatimQ q = true := decide_eq_true ⟨h1, h2, h3⟩
  constructor
  · unfold expandQuery
    rw [if_pos hv]
  · intro mP mT errFn ord db years tp off
    exact apiSearch_usedFuzzy_of_verbatim hv

/-- C2 (witness): the amended theorem at the concrete verbatim query
`"ab"`, with an index state and match semantics under which a
non-verbatim empty-result query would have fallen back. -/
theorem c2_witness :
    expandQuery "\"ab\"".data = "\"ab\"".data ∧
      (apiSearch (fun _ _ => false) (fun _ _ => true) (fun _ => false) (fun l => l)
        ⟨[], [], [], [], true⟩ "\"ab\"".data none none 0).usedFuzzy = false := by
  obtain ⟨hexp, hfz⟩ :=
    c2_verbatim_no_fallback "\"ab\"".data (by decide) (by decide) (by decide)
  exact ⟨hexp, hfz _ _ _ _ _ _ _ _⟩

/-- C4: for every search request with a non-blank query against a ready
index, the route never answers with the 500 of the outer catch because of
an FTS5 match-expression error: the match strings executed by the exact
and the fallback statements are identical, a match-expression syntax
error is a function of the expression text alone, so the fallback
statement can only fail where the exact statement already failed — and
the exact statement's failure is caught locally and degraded to an empty
result list. -/
theorem c4_no_5xx_from_fts (mP mT : MatchFn) (errFn : List Char → Bool)
    (ord : List Doc → List Doc) (db : DB) (q : List Char)
    (years tp : Option (List Char)) (off : Nat)
    (hm : db.marker = true) (hq : trimL q ≠ []) :
    (apiSearch mP mT errFn ord db q years tp off).response ≠ .serverError ∧
      ((matchStrings q (expandQuery q) (isAndOf q)).any errFn = true →
        (apiSearch mP mT errFn ord db q years tp off).response = .results []) := by
  by_cases hc : cleanedOf q = []
  · unfold apiSearch
    rw [if_neg (by simp [hm]), if_neg hq, if_pos hc]
    exact ⟨by simp, fun _ => rfl⟩
  · by_cases he : (matchStrings q (expandQuery q) (isAndOf q)).any errFn = true
    · rw [apiSearch_err hm hq hc he]
      exact ⟨by simp, fun _ => rfl⟩
    · have he' : (matchStrings q (expandQuery q) (isAndOf q)).any errFn = false := by
        cases hx : (matchStrings q (expandQuery q) (isAndOf q)).any errFn
        · rfl
        · exact absurd hx he
      rw [apiSearch_run hm hq hc he']
      constructor
      · split
        · simp
        · simp
      · intro hcontra
        exact absurd hcontra he

/-- C4 (witness): the theorem at a concrete request whose error predicate
rejects every match string, exercising the degraded-to-empty path. -/
theorem c4_witness :
    (apiSearch (fun _ _ => true) (fun _ _ => true) (fun _ => true) (fun l => l)
        ⟨[], [], [], [], true⟩ "abc".data none none 0).response ≠ .serverError ∧
      ((matchStrings "abc".data (expandQuery "abc".data) (isAndOf "abc".data)).any
          (fun _ => true) = true →
        (apiSearch (fun _ _ => true) (fun _ _ => true) (fun _ => true) (fun l => l)
            ⟨[], [], [], [], true⟩ "abc".data none none 0).response = .results []) :=
  c4_no_5xx_from_fts _ _ _ _ _ _ _ _ _ rfl (by decide)

/-- C1: for every query whose expansion contains the case-insensitive
literal ` AND `, every hit the route returns (from whichever index served
the request) matches at least one of the expanded sub-clauses, and its
file lies in the intersection of the per-clause file sets: for every
sub-clause some segment of the same file in that index matches it. -/
theorem c1_and_query_file_intersection (mP mT : MatchFn) (errFn : List Char → Bool)
    (ord : List Doc → List Doc) (db : DB) (q : List Char)
    (years tp : Option (List Char)) (off : Nat) (hits : List Doc) (d : Doc)
    (hOrd : ∀ l, List.Perm (ord l) l)
    (hA : isAndOf q = true)
    (hres : (apiSearch mP mT errFn ord db q years tp off).response = .results hits)
    (hd : d ∈ hits) :
    ((apiSearch mP mT errFn ord db q years tp off).usedFuzzy = false →
      (andParts q).any (fun p => mP p d) = true ∧
        ∀ p ∈ andParts q, ∃ e, e ∈ db.porter ∧ mP p e = true ∧ e.file = d.file) ∧
    ((apiSearch mP mT errFn ord db q years tp off).usedFuzzy = true →
      (andParts q).any (fun p => mT p d) = true ∧
        ∀ p ∈ andParts q, ∃ e, e ∈ db.trigram ∧ mT p e = true ∧ e.file = d.file) := by
  cases hmv : db.marker with
  | false =>
    exfalso
    unfold apiSearch at hres
    rw [if_pos hmv] at hres
    simp at hres
  | true =>
    by_cases hq : trimL q = []
    · exfalso
      unfold apiSearch at hres
      rw [if_neg (by simp [hmv]), if_pos hq] at hres
      simp only [SearchResponse.results.injEq] at hres
      rw [← hres] at hd
      simp at hd
    · by_cases hc : cleanedOf q = []
      · exfalso
        unfold apiSearch at hres
        rw [if_neg (by simp [hmv]), if_neg hq, if_pos hc] at hres
        simp only [SearchResponse.results.injEq] at hres
        rw [← hres] at hd
        simp at hd
      · by_cases he : (matchStrings q (expandQuery q) (isAndOf q)).any errFn = true
        · exfalso
          rw [apiSearch_err hmv hq hc he] at hres
          simp only [SearchResponse.results.injEq] at hres
          rw [← hres] at hd
          simp at hd
        · have he' : (matchStrings q (expandQuery q) (isAndOf q)).any errFn = false := by
            cases hx : (matchStrings q (expandQuery q) (isAndOf q)).any errFn
            · rfl
            · exact absurd hx he
          rw [apiSearch_run hmv hq hc he'] at hres ⊢
          by_cases hcond : (!isVerbatimQ q
              && (exactPage mP ord db q years tp off).isEmpty
              && decide (3 ≤ q.length)) = true
          · rw [if_pos hcond] at hres ⊢
            simp only [SearchResponse.results.injEq] at hres
            rw [← hres] at hd
            have hmem : d ∈ filteredDocs mT db.trigram q (expandQuery q) (isAndOf q)
                years (typeValueOf tp) := mem_of_mem_pageOf hOrd hd
            rw [hA] at hmem
            constructor
            · intro hcontra
              simp at hcontra
            · intro _
              exact mem_filteredDocs_and hmem
          · rw [if_neg hcond] at hres ⊢
            simp only [SearchResponse.results.injEq] at hres
            rw [← hres] at hd
            have hmem : d ∈ filteredDocs mP db.porter q (expandQuery q) (isAndOf q)
                years (typeValueOf tp) := mem_of_mem_pageOf hOrd hd
            rw [hA] at hmem
            constructor
            · intro _
              exact mem_filteredDocs_and hmem
            · intro hcontra
              simp at hcontra

/-- C1 (uses): the two segments of one episode file. -/
def c1dR : Doc := ⟨"f.txt::1".data, "f.txt".data, 1, "1999-01-01".data, "rick".data, "show".data⟩

def c1dS : Doc := ⟨"f.txt::3".data, "f.txt".data, 3, "1999-01-01".data, "suds".data, "show".data⟩

/-- C1 (uses): match semantics equating the expression with the text. -/
def c1m : MatchFn := fun p d => decide (p = d.text_content)

def c1db : DB := ⟨[c1dR, c1dS], [], [], [], true⟩

/-- C1 (witness): the theorem at the query `Rick AND Suds` over an index
holding one episode with a `rick` segment and a `suds` segment: the
returned `rick` segment matches only the first sub-clause, and its file
collectively satisfies both. -/
theorem c1_witness :
    ((apiSearch c1m c1m (fun _ => false) (fun l => l) c1db "Rick AND Suds".data
        none none 0).usedFuzzy = false →
      (andParts "Rick AND Suds".data).any (fun p => c1m p c1dR) = true ∧
        ∀ p ∈ andParts "Rick AND Suds".data,
          ∃ e, e ∈ c1db.porter ∧ c1m p e = true ∧ e.file = c1dR.file) ∧
    ((apiSearch c1m c1m (fun _ => false) (fun l => l) c1db "Rick AND Suds".data
        none none 0).usedFuzzy = true →
      (andParts "Rick AND Suds".data).any (fun p => c1m p c1dR) = true ∧
        ∀ p ∈ andParts "Rick AND Suds".data,
          ∃ e, e ∈ c1db.trigram ∧ c1m p e = true ∧ e.file = c1dR.file) :=
  c1_and_query_file_intersection c1m c1m (fun _ => false) (fun l => l) c1db
    "Rick AND Suds".data none none 0 [c1dR, c1dS] c1dR
    (fun l => List.Perm.refl l) (by decide) (by decide) (by decide)

/-- C10 (uses): the single exact hit of the corpus. -/
def c10d0 : Doc := ⟨"a::1".data, "a".data, 1, "1999-01-01".data, "abc here".data, "show".data⟩

/-- C10 (uses): one of the 101 trigram matches of the corpus. -/
def c10dT : Doc := ⟨"b::2".data, "b".data, 2, "2000-01-01".data, "abcde".data, "show".data⟩

/-- C10 (uses): match semantics under which every row matches. -/
def c10m : MatchFn := fun _ _ => true

def c10db : DB := ⟨[c10d0], List.replicate 101 c10dT, [], [], true⟩

/-- C10: the fuzzy-fallback decision is taken per request from the
requested page alone: for a ready index, a non-blank non-verbatim query
of length at least 3 with a non-empty cleaned expansion and no
match-expression error, the trigram table is queried exactly when the
exact page at the requested offset is empty.  Concretely, over a corpus
with exactly one exact hit and 101 trigram matches, the request at
offset 100 is served from the trigram index (a non-empty fuzzy page)
while the request at offset 0 is served from the exact index — the same
query yields exact and fuzzy results across successive pages. -/
theorem c10_fuzzy_fallback_per_page :
    (∀ (mP mT : MatchFn) (errFn : List Char → Bool) (ord : List Doc → List Doc)
        (db : DB) (q : List Char) (years tp : Option (List Char)) (off : Nat),
        db.marker = true → trimL q ≠ [] → cleanedOf q ≠ [] →
        isVerbatimQ q = false → 3 ≤ q.length →
        (matchStrings q (expandQuery q) (isAndOf q)).any errFn = false →
        ((apiSearch mP mT errFn ord db q years tp off).usedFuzzy = true ↔
          exactPage mP ord db q years tp off = [])) ∧
      apiSearch c10m c10m (fun _ => false) (fun l => l) c10db "abc".data none none 100 =
        ⟨.results [c10dT], true⟩ ∧
      (filteredDocs c10m c10db.porter "abc".data (expandQuery "abc".data)
          (isAndOf "abc".data) none (typeValueOf none)).length = 1 ∧
      apiSearch c10m c10m (fun _ => false) (fun l => l) c10db "abc".data none none 0 =
        ⟨.results [c10d0], false⟩ := by
  refine ⟨?_, by decide, by decide, by decide⟩
  intro mP mT errFn ord db q years tp off hm hq hc hv hl he
  rw [apiSearch_run hm hq hc he, hv]
  simp only [Bool.not_false, Bool.true_and, decide_eq_true hl, Bool.and_true]
  by_cases hp : (exactPage mP ord db q years tp off).isEmpty = true
  · rw [if_pos hp]
    simp only [true_iff]
    exact List.isEmpty_iff.mp hp
  · rw [if_neg hp]
    constructor
    · intro hcontra
      simp at hcontra
    · intro hnil
      exact absurd (by rw [hnil]; rfl) hp

/-- C10 (witness): the per-page iff of the theorem at the concrete corpus
and offset 100, where the exact page is empty and the fallback runs. -/
theorem c10_witness :
    (apiSearch c10m c10m (fun _ => false) (fun l => l) c10db "abc".data
        none none 100).usedFuzzy = true ↔
      exactPage c10m (fun l => l) c10db "abc".data none none 100 = [] :=
  c10_fuzzy_fallback_per_page.1 c10m c10m (fun _ => false) (fun l => l) c10db
    "abc".data none none 100 rfl (by decide) (by decide) (by decide) (by decide)
    (by decide)

/-- C5 (uses): a filesystem on which every read fails. -/
def c5read : List Char → Option (List Char) := fun _ => none

def c5files : List FileEntry := [⟨"a.txt".data, .show⟩]

def c5db0 : DB := ⟨[], [], [], [], false⟩

/-- C5 (counterexample): with one enumerated file that cannot be read,
the build does not skip it and continue to completion — the uncaught
`readFileSync` failure aborts the build and the completion marker is
never written. -/
theorem c5_counterexample :
    exceptOk (buildIndex c5read c5files none c5db0) = false ∧
      (resultBR (buildIndex c5read c5files none c5db0)).db.marker = false := by
  decide

/-- C5 (amended): whenever some enumerated source file cannot be read,
the build aborts (`readFileSync` is called with no surrounding try/catch
inside `buildIndex`): the run does not complete and the completion
marker keeps its prior value, so nothing is skipped-and-continued. -/
theorem c5_unreadable_aborts (read : List Char → Option (List Char))
    (files : List FileEntry) (csv : Option (List Char)) (db0 : DB)
    (h : files.any (fun e => (read e.path).isNone) = true) :
    exceptOk (buildIndex read files csv db0) = false ∧
      (resultBR (buildIndex read files csv db0)).db.marker = db0.marker := by
  obtain ⟨a2, ha⟩ := ingest_abort read files ⟨dropPhase db0, [], [], []⟩ h
  have hmk := ingest_marker read files ⟨dropPhase db0, [], [], []⟩
  rw [ha] at hmk
  unfold buildIndex
  rw [ha]
  exact ⟨rfl, hmk⟩

/-- C5 (witness): the amended theorem at the concrete unreadable
corpus. -/
theorem c5_witness :
    exceptOk (buildIndex c5read c5files none c5db0) = false ∧
      (resultBR (buildIndex c5read c5files none c5db0)).db.marker = c5db0.marker :=
  c5_unreadable_aborts c5read c5files none c5db0 (by decide)

/-- C6 (uses): a segment present in both indexes of a previous
generation. -/
def c6doc : Doc := ⟨"x".data, "f".data, 0, "d".data, "t".data, "show".data⟩

def c6db0 : DB := ⟨[c6doc], [c6doc], [], [], false⟩

/-- C6 (counterexample): rebuilding over a previous generation drops the
porter table before the trigram table, so the observable state between
the two drops has a segment in the trigram index that the porter index
lacks — the lockstep invariant does not hold at every observable point of
the build. -/
theorem c6_counterexample :
    ((resultBR (buildIndex (fun _ => none) [] none c6db0)).dropTrace.any
      (fun s => s.trigram.any (fun seg => decide (¬ seg ∈ s.porter)))) = true := by
  decide

theorem flushFinal_lockstep {a : Acc} (h1 : a.db.porter = a.db.trigram)
    (h2 : ∀ s ∈ a.trace, s.porter = s.trigram) :
    (flushFinal a).db.porter = (flushFinal a).db.trigram ∧
      ∀ s ∈ (flushFinal a).trace, s.porter = s.trigram := by
  unfold flushFinal
  by_cases hb : a.batch ≠ [] ∨ a.showsBatch ≠ []
  · rw [if_pos hb]
    refine ⟨?_, ?_⟩
    · simp only [insertMany]
      rw [h1]
    · intro s hs
      rcases List.mem_append.mp hs with hold | hnew
      · exact h2 s hold
      · rw [List.mem_singleton.mp hnew]
        simp only [insertMany]
        rw [h1]
  · rw [if_neg hb]
    exact ⟨h1, h2⟩

theorem csvPhase_lockstep (csv : Option (List Char)) {a : Acc}
    (h1 : a.db.porter = a.db.trigram) (h2 : ∀ s ∈ a.trace, s.porter = s.trigram) :
    (csvPhase csv a).db.porter = (csvPhase csv a).db.trigram ∧
      ∀ s ∈ (csvPhase csv a).trace, s.porter = s.trigram := by
  cases csv with
  | none => exact ⟨h1, h2⟩
  | some data =>
    refine ⟨h1, ?_⟩
    intro s hs
    rcases List.mem_append.mp hs with hold | hnew
    · exact h2 s hold
    · rw [List.mem_singleton.mp hnew]
      exact h1

theorem markerPhase_lockstep {a : Acc}
    (h1 : a.db.porter = a.db.trigram) (h2 : ∀ s ∈ a.trace, s.porter = s.trigram) :
    (markerPhase a).db.porter = (markerPhase a).db.trigram ∧
      ∀ s ∈ (markerPhase a).trace, s.porter = s.trigram := by
  refine ⟨h1, ?_⟩
  intro s hs
  rcases List.mem_append.mp hs with hold | hnew
  · exact h2 s hold
  · rw [List.mem_singleton.mp hnew]
    exact h1

/-- C6 (amended): every segment inserted into the porter index during a
build is inserted into the trigram index within the same atomic
`insertMany` transaction, so every observable state from the completion
of the drop/recreate phase onward — every committed-transaction state of
a completed or aborted run, and the final database — holds exactly the
same segment list in both indexes.  Only the drop phase itself can
transiently break the symmetry (the counterexample), because the porter
table is dropped one statement before the trigram table. -/
theorem c6_dual_index_lockstep (read : List Char → Option (List Char))
    (files : List FileEntry) (csv : Option (List Char)) (db0 : DB) :
    (∀ s ∈ (resultBR (buildIndex read files csv db0)).mainTrace, s.porter = s.trigram) ∧
      (resultBR (buildIndex read files csv db0)).db.porter =
        (resultBR (buildIndex read files csv db0)).db.trigram := by
  have hbase := ingest_lockstep read files ⟨dropPhase db0, [], [], []⟩ rfl
    (by intro s hs; simp at hs)
  unfold buildIndex
  cases hi : ingest read ⟨dropPhase db0, [], [], []⟩ files with
  | error a =>
    rw [hi] at hbase
    exact ⟨hbase.2, hbase.1⟩
  | ok a =>
    rw [hi] at hbase
    have h1 := flushFinal_lockstep hbase.1 hbase.2
    have h2 := csvPhase_lockstep csv h1.1 h1.2
    have h3 := markerPhase_lockstep h2.1 h2.2
    exact ⟨h3.2, h3.1⟩

/-- C6 (witness): the amended theorem at a concrete build over the
previous generation, instantiated at the head state of its committed
trace and at the final database. -/
theorem c6_witness :
    (((resultBR (buildIndex (fun _ => none) [] none c6db0)).mainTrace.getD 0
        (resultBR (buildIndex (fun _ => none) [] none c6db0)).db).porter =
      ((resultBR (buildIndex (fun _ => none) [] none c6db0)).mainTrace.getD 0
        (resultBR (buildIndex (fun _ => none) [] none c6db0)).db).trigram) ∧
      (resultBR (buildIndex (fun _ => none) [] none c6db0)).db.porter =
        (resultBR (buildIndex (fun _ => none) [] none c6db0)).db.trigram := by
  obtain ⟨h1, h2⟩ := c6_dual_index_lockstep (fun _ => none) [] none c6db0
  refine ⟨h1 _ ?_, h2⟩
  decide

theorem apiSearch_empty_db (mP mT : MatchFn) (errFn : List Char → Bool)
    (ord : List Doc → List Doc) (hOrd : ∀ l, List.Perm (ord l) l) (db : DB)
    (hp : db.porter = []) (ht : db.trigram = []) (hm : db.marker = true)
    (q : List Char) (years tp : Option (List Char)) (off : Nat) :
    (apiSearch mP mT errFn ord db q years tp off).response = .results [] := by
  by_cases hq : trimL q = []
  · unfold apiSearch
    rw [if_neg (by simp [hm]), if_pos hq]
  · by_cases hc : cleanedOf q = []
    · unfold apiSearch
      rw [if_neg (by simp [hm]), if_neg hq, if_pos hc]
    · by_cases he : (matchStrings q (expandQuery q) (isAndOf q)).any errFn = true
      · rw [apiSearch_err hm hq hc he]
      · have he' : (matchStrings q (expandQuery q) (isAndOf q)).any errFn = false := by
          cases hx : (matchStrings q (expandQuery q) (isAndOf q)).any errFn
          · rfl
          · exact absurd hx he
        rw [apiSearch_run hm hq hc he']
        have hpage : exactPage mP ord db q years tp off = [] := by
          unfold exactPage pageOf filteredDocs
          rw [hp, List.filter_nil, (hOrd []).eq_nil]
          simp
        have hfz : fuzzyPage mT ord db q years tp off = [] := by
          unfold fuzzyPage pageOf filteredDocs
          rw [ht, List.filter_nil, (hOrd []).eq_nil]
          simp
        rw [hpage, hfz]
        split
        · rfl
        · rfl

/-- C8: a build over zero enumerated files completes without crashing:
the critical log fires, both full-text indexes are left empty, the
completion marker is still written (so later starts skip the rebuild),
and every subsequent search against the resulting database answers with
an empty result list — never an error — whatever the query, filters,
offset, match semantics, or error predicate. -/
theorem c8_no_sources_completes (read : List Char → Option (List Char))
    (csv : Option (List Char)) (db0 : DB) :
    exceptOk (buildIndex read [] csv db0) = true ∧
    (resultBR (buildIndex read [] csv db0)).noSources = true ∧
    (resultBR (buildIndex read [] csv db0)).db.porter = [] ∧
    (resultBR (buildIndex read [] csv db0)).db.trigram = [] ∧
    (resultBR (buildIndex read [] csv db0)).db.marker = true ∧
    ∀ (mP mT : MatchFn) (errFn : List Char → Bool) (ord : List Doc → List Doc),
      (∀ l, List.Perm (ord l) l) →
      ∀ (q : List Char) (years tp : Option (List Char)) (off : Nat),
        (apiSearch mP mT errFn ord (resultBR (buildIndex read [] csv db0)).db
            q years tp off).response = .results [] := by
  cases csv with
  | none =>
    refine ⟨rfl, rfl, rfl, rfl, rfl, ?_⟩
    intro mP mT errFn ord hOrd q years tp off
    exact apiSearch_empty_db mP mT errFn ord hOrd _ rfl rfl rfl q years tp off
  | some data =>
    refine ⟨rfl, rfl, rfl, rfl, rfl, ?_⟩
    intro mP mT errFn ord hOrd q years tp off
    exact apiSearch_empty_db mP mT errFn ord hOrd _ rfl rfl rfl q years tp off

/-- C8 (witness): the theorem at a concrete empty corpus, with an error
predicate rejecting every match string (the degraded path) and a plain
query. -/
theorem c8_witness :
    (apiSearch (fun _ _ => true) (fun _ _ => true) (fun _ => true) (fun l => l)
        (resultBR (buildIndex (fun _ => some "x".data) [] none
          ⟨[], [], [], [], false⟩)).db
        "hello".data none none 0).response = .results [] :=
  (c8_no_sources_completes (fun _ => some "x".data) none
      ⟨[], [], [], [], false⟩).2.2.2.2.2
    (fun _ _ => true) (fun _ _ => true) (fun _ => true) (fun l => l)
    (fun l => List.Perm.refl l) "hello".data none none 0

theorem flushFinal_links {a : Acc} :
    (flushFinal a).db.show_links = a.db.show_links ∧
      ∀ s ∈ (flushFinal a).trace, s ∈ a.trace ∨ s.show_links = a.db.show_links := by
  unfold flushFinal
  by_cases hb : a.batch ≠ [] ∨ a.showsBatch ≠ []
  · rw [if_pos hb]
    refine ⟨rfl, ?_⟩
    intro s hs
    rcases List.mem_append.mp hs with hold | hnew
    · exact Or.inl hold
    · rw [List.mem_singleton.mp hnew]
      exact Or.inr rfl
  · rw [if_neg hb]
    exact ⟨rfl, fun s hs => Or.inl hs⟩

theorem csvLinks_eq_filterMap (data : List Char) :
    csvLinks data = ((csvRows data).map parseCsvLine).filterMap mkLink := by
  unfold csvLinks
  generalize (csvRows data).map parseCsvLine = rows
  induction rows with
  | nil => rfl
  | cons r rest ih =>
    by_cases h3 : 3 ≤ r.length
    · rw [List.filter_cons_of_pos (by simpa using h3), List.filterMap_cons,
        List.filterMap_cons, ih]
    · have hnone : mkLink r = none := by
        unfold mkLink
        rw [if_neg]
        intro hcontra
        have hd2 : r.getD 2 [] = [] := by
          apply List.getD_eq_default
          omega
        rw [hd2] at hcontra
        exact absurd hcontra.2.2 (by decide)
      rw [List.filter_cons_of_neg (by simpa using h3), List.filterMap_cons, hnone, ih]

/-- C9: when the metadata CSV exists and the build completes, the final
link table is a function of the CSV alone (the whole previous table is
replaced, not merged); a data row is admitted exactly when its cleaned
date field is non-empty and its cleaned URL field starts with `http`;
for every date the surviving row is the last admitted row of the file
with that date; and no observable state of the build holds anything but
the old table or the fully rebuilt table (the delete and the inserts
share one transaction). -/
theorem c9_link_table_rebuild (read : List Char → Option (List Char))
    (files : List FileEntry) (csvData : List Char) (db0 : DB)
    (hok : exceptOk (buildIndex read files (some csvData) db0) = true) :
    (resultBR (buildIndex read files (some csvData) db0)).db.show_links =
        replaceAllLinks (csvLinks csvData) ∧
      (∀ dte, linkLookup
          (resultBR (buildIndex read files (some csvData) db0)).db.show_links dte =
        ((csvLinks csvData).filter (fun l => decide (l.date = dte))).getLast?) ∧
      (∀ row : List (List Char),
        (∃ l, mkLink row = some l) ↔
          (cleanField (row.getD 0 []) ≠ [] ∧ isHttp (cleanField (row.getD 2 [])) = true)) ∧
      csvLinks csvData = ((csvRows csvData).map parseCsvLine).filterMap mkLink ∧
      ∀ s ∈ (resultBR (buildIndex read files (some csvData) db0)).mainTrace,
        s.show_links = db0.show_links ∨
          s.show_links = replaceAllLinks (csvLinks csvData) := by
  have hlinks := ingest_links read files ⟨dropPhase db0, [], [], []⟩
    (by intro s hs; simp at hs)
  unfold buildIndex at hok ⊢
  cases hi : ingest read ⟨dropPhase db0, [], [], []⟩ files with
  | error a =>
    rw [hi] at hok
    exact absurd hok (by simp [exceptOk])
  | ok a =>
    rw [hi] at hlinks
    refine ⟨rfl, ?_, ?_, csvLinks_eq_filterMap csvData, ?_⟩
    · intro dte
      exact linkLookup_replaceAllLinks (csvLinks csvData) dte
    · intro row
      unfold mkLink
      by_cases hcd : cleanField (row.getD 0 []) ≠ []
      · by_cases hhttp : isHttp (cleanField (row.getD 2 [])) = true
        · have hcy : cleanField (row.getD 2 []) ≠ [] := by
            intro hnil
            rw [hnil] at hhttp
            simp [isHttp] at hhttp
          rw [if_pos ⟨hcd, hcy, hhttp⟩]
          constructor
          · intro _
            exact ⟨hcd, hhttp⟩
          · intro _
            exact ⟨_, rfl⟩
        · rw [if_neg (by intro hcontra; exact hhttp hcontra.2.2)]
          constructor
          · intro hcontra
            obtain ⟨l, hl⟩ := hcontra
            exact absurd hl (by simp)
          · intro hcontra
            exact absurd hcontra.2 hhttp
      · rw [if_neg (by intro hcontra; exact hcd hcontra.1)]
        constructor
        · intro hcontra
          obtain ⟨l, hl⟩ := hcontra
          exact absurd hl (by simp)
        · intro hcontra
          exact absurd hcontra.1 (by simpa using hcd)
    · intro s hs
      simp only [markerPhase, csvPhase] at hs
      rcases List.mem_append.mp hs with hs1 | hs2
      · rcases List.mem_append.mp hs1 with hs3 | hs4
        · rcases (flushFinal_links.2 s hs3) with hold | hfl
          · exact Or.inl (hlinks.2 s hold)
          · exact Or.inl (by rw [hfl]; exact hlinks.1)
        · rw [List.mem_singleton.mp hs4]
          exact Or.inr rfl
      · rw [List.mem_singleton.mp hs2]
        exact Or.inr rfl

/-- C9 (uses): a small CSV with a duplicate date and a rejected row. -/
def c9csv : List Char :=
  "date,init,youtube\n2001-01-01,x,http://a\n2001-01-01,y,http://b\nbad,,nothttp".data

/-- C9 (witness): the theorem at an empty corpus and the concrete CSV:
both admitted rows share a date and the later URL survives. -/
theorem c9_witness :
    (resultBR (buildIndex (fun _ => some "".data) [] (some c9csv)
        ⟨[], [], [], [], false⟩)).db.show_links = replaceAllLinks (csvLinks c9csv) ∧
      linkLookup (resultBR (buildIndex (fun _ => some "".data) [] (some c9csv)
          ⟨[], [], [], [], false⟩)).db.show_links "2001-01-01".data =
        ((csvLinks c9csv).filter
          (fun l => decide (l.date = "2001-01-01".data))).getLast? := by
  obtain ⟨h1, h2, _, _, _⟩ := c9_link_table_rebuild (fun _ => some "".data) [] c9csv
    ⟨[], [], [], [], false⟩ (by decide)
  exact ⟨h1, h2 "2001-01-01".data⟩

end SearchNeil
